import Mathlib

/-!
Verification of the pahcer-studio run-orchestration and result-reconciliation
engine (TypeScript sources under `src/`), as a shallow embedding in Lean 4.

Conventions of the embedding:
  * JavaScript numbers are modelled as `ℚ` (all arithmetic the engine performs
    on scores is exact in the reals; `NaN` normalisation is noted where the
    source has it — with `ℚ`, division by zero already yields `0`).
  * `null`/`undefined`-able values are modelled as `Option`.
  * Filesystem contents are modelled as explicit state records; `fs` calls
    become reads/writes of those records.  TOML/JSON (de)serialisation is
    abstracted as the identity on the structured value.
  * Asynchronous orchestration (ExecutionService) is modelled as a trace of
    atomic actions; the possible traces of a run, including the interleaving
    of `stopExecution` with the tail of `executePacher`, form an inductive
    trace relation.
-/

/-- The `'Max' | 'Min'` objective from `pahcer_config.toml` (ConfigService). -/
inductive Objective where
  | Max
  | Min
deriving DecidableEq, Repr

/-- Model of `TestExecutionStatusSchema` from `src/schemas/execution.ts`. -/
inductive Status where
  | IDLE
  | RUNNING
  | COMPLETED
  | FAILED
  | CANCELLED
deriving DecidableEq, Repr

/-- The three terminal statuses of the run state machine. -/
def Status.isTerminal : Status → Bool
  | .COMPLETED => true
  | .FAILED => true
  | .CANCELLED => true
  | _ => false

/-- Model of `ConfigService.calculateRelativeScore` (`src/services/ConfigService.ts`
lines 197-209): `0` when either input is non-positive, otherwise
`best/score` under `Min` and `score/best` under `Max`. -/
def calculateRelativeScore (score bestScore : ℚ) (objective : Objective) : ℚ :=
  if score ≤ 0 ∨ bestScore ≤ 0 then 0
  else match objective with
    | .Min => bestScore / score
    | .Max => score / bestScore

/-- A parsed JSON value, as far as `getBestScores` inspects it: the code only
tests `typeof score === 'number'`, so we distinguish numbers from everything
else. -/
inductive JsonValue where
  | num (q : ℚ)
  | nonNumber
deriving DecidableEq, Repr

/-- JavaScript whitespace as trimmed by `parseInt`. -/
def isJsSpace (c : Char) : Bool :=
  c = ' ' ∨ c = '\t' ∨ c = '\n' ∨ c = '\r'

/-- Value of a leading run of decimal digits; `none` when there is none
(`parseInt` yields `NaN` in that case). -/
def digitsValue (l : List Char) : Option ℕ :=
  let ds := l.takeWhile Char.isDigit
  if ds = [] then none
  else some (ds.foldl (fun a c => a * 10 + (c.toNat - 48)) 0)

/-- JavaScript `parseInt(s, 10)`: skip leading whitespace, optional sign,
then the longest prefix of decimal digits; `none` models `NaN`. -/
def jsParseInt (s : String) : Option ℤ :=
  match s.toList.dropWhile isJsSpace with
  | '-' :: rest => (digitsValue rest).map (fun n => -(n : ℤ))
  | '+' :: rest => (digitsValue rest).map (fun n => (n : ℤ))
  | other => (digitsValue other).map (fun n => (n : ℤ))

/-- The best-score table `Record<number, number>`, as an association list in
object insertion order. -/
def BestScores := List (ℤ × ℚ)

/-- Assignment `result[seed] = score` on a JS object: replace in place if the key is
present, append otherwise. -/
def setScore : List (ℤ × ℚ) → ℤ → ℚ → List (ℤ × ℚ)
  | [], k, v => [(k, v)]
  | p :: rest, k, v => if p.1 = k then (k, v) :: rest else p :: setScore rest k v

/-- The `bestScores[seed]` lookup on the table. -/
def lookupBest (bs : List (ℤ × ℚ)) (seed : ℤ) : Option ℚ :=
  (bs.find? (fun p => p.1 = seed)).map (fun p => p.2)

/-- Model of `ConfigService.getBestScores` (`src/services/ConfigService.ts` lines
165-188).  The argument is the outcome of reading and `JSON.parse`-ing
`best_scores.json`: `Except.error` covers every failure (missing file and
any read or parse error — both catch branches return `{}`), `Except.ok`
carries `Object.entries` of the parsed object.  Entries whose key does not
`parseInt` or whose value is not a number are skipped. -/
def getBestScores (content : Except String (List (String × JsonValue))) :
    List (ℤ × ℚ) :=
  match content with
  | .error _ => []
  | .ok entries =>
      entries.foldl
        (fun acc p =>
          match jsParseInt p.1, p.2 with
          | some seed, .num q => setScore acc seed q
          | _, _ => acc)
        []

/-- One per-case record of a summary artifact (`SummaryCaseRaw` in
`src/types/summary`): seed, nullable score, execution time, optional error
text.  Untrusted external data, hence the `Option`s. -/
structure SummaryCase where
  seed : ℤ
  score : Option ℚ
  execution_time : Option ℚ
  error_message : Option String
deriving DecidableEq, Repr

/-- The summary artifact `summary.json` (`SummaryJson`), with every field
optional since the file is treated as untrusted, partially-present data. -/
structure SummaryJson where
  case_count : Option ℚ
  total_score : Option ℚ
  max_execution_time : Option ℚ
  comment : Option String
  wa_seeds : Option (List ℤ)
  cases : Option (List SummaryCase)
deriving DecidableEq, Repr

/-- The accumulation loop shared by `calculateExecutionStats` and
`recalculateAllRelativeScores` (`src/services/ScoreAnalysisService.ts`):
for each case with `c.score != null && bestScores[c.seed] !== undefined`,
add its relative score to the running total and bump the count. -/
def relFold (bs : List (ℤ × ℚ)) (objective : Objective)
    (cases : List SummaryCase) : ℚ × ℕ :=
  cases.foldl
    (fun acc c =>
      match c.score, lookupBest bs c.seed with
      | some sc, some b => (acc.1 + calculateRelativeScore sc b objective, acc.2 + 1)
      | _, _ => acc)
    (0, 0)

/-- Result record of `ScoreAnalysisService.calculateExecutionStats`. -/
structure ExecStats where
  totalCount : ℚ
  acceptedCount : ℚ
  averageScore : ℚ
  averageRelativeScore : ℚ
  maxExecutionTime : ℚ
deriving DecidableEq, Repr

/-- Model of `ScoreAnalysisService.calculateExecutionStats`
(`src/services/ScoreAnalysisService.ts` lines 130-163).  `caseCnt` is
`Number(case_count ?? 0)`; the average relative score is computed only when
`caseCnt > 0` and `cases` is an array, averaging over the cases selected by
`relFold`; the `isNaN` normalisations of the source are vacuous over `ℚ`. -/
def calculateExecutionStats (summaryData : SummaryJson)
    (bs : List (ℤ × ℚ)) (objective : Objective) : ExecStats :=
  let caseCnt : ℚ := summaryData.case_count.getD 0
  let avgScore : ℚ := if 0 < caseCnt then (summaryData.total_score.getD 0) / caseCnt else 0
  let avgRel : ℚ :=
    if 0 < caseCnt then
      match summaryData.cases with
      | some l =>
          let p := relFold bs objective l
          if p.2 ≠ 0 then p.1 / (p.2 : ℚ) else 0
      | none => 0
    else 0
  { totalCount := caseCnt
    acceptedCount := caseCnt - ((summaryData.wa_seeds.getD []).length : ℚ)
    averageScore := avgScore
    averageRelativeScore := avgRel
    maxExecutionTime := (summaryData.max_execution_time.getD 0) * 1000 }

/-- Model of `TestExecutionSchema` from `src/schemas/execution.ts`.  `startTime` is a
timestamp string in the source; it is modelled as the numeric instant
(`new Date(s).getTime()`), which is all `findAll`'s ordering looks at. -/
structure TestExecution where
  id : String
  status : Status
  startTime : Option ℚ
  comment : Option String
  averageScore : Option ℚ
  averageRelativeScore : Option ℚ
  acceptedCount : Option ℚ
  totalCount : Option ℚ
  maxExecutionTime : Option ℚ
deriving DecidableEq, Repr

/-- JavaScript truthiness on a nullable string: `null`, `undefined` and `""`
are falsy. -/
def strTruthy : Option String → Option String
  | some s => if s = "" then none else some s
  | none => none

/-- Evaluation of `execution.comment || summary.comment || ''` in `mergeWithSummary`. -/
def jsOrComment (a b : Option String) : String :=
  match strTruthy a with
  | some s => s
  | none =>
      match strTruthy b with
      | some s => s
      | none => ""

/-- State of `execution_info.json` in one run directory: missing, present but
failing `TestExecutionSchema.safeParse`, or valid. -/
inductive InfoState where
  | absent
  | invalid
  | valid (e : TestExecution)
deriving DecidableEq, Repr

/-- One run directory under `data/results`: its name (the run id), the
metadata file and the summary artifact. -/
structure RunDir where
  id : String
  info : InfoState
  summary : Option SummaryJson
deriving DecidableEq, Repr

/-- The results root directory: the list of existing run directories, in
`readdir` order. -/
def Store := List RunDir

/-- Existence/lookup of a run directory by id (`fs.access` on the directory
path / the file reads inside it). -/
def findDir (st : List RunDir) (id : String) : Option RunDir :=
  st.find? (fun d => d.id = id)

/-- The minimal Completed record `findById` synthesizes when a summary exists
without metadata.  The source stamps `startTime` with the current clock; no
claim depends on it, so the model leaves it `none`. -/
def synthRecord (id : String) : TestExecution :=
  { id := id
    status := .COMPLETED
    startTime := none
    comment := none
    averageScore := some 0
    averageRelativeScore := some 0
    acceptedCount := none
    totalCount := none
    maxExecutionTime := none }

/-- Model of `ExecutionRepository.mergeWithSummary` (lines 260-276): recompute all
aggregate statistics from the summary and overwrite them on the record. -/
def mergeWithSummary (execution : TestExecution) (summary : SummaryJson)
    (bs : List (ℤ × ℚ)) (objective : Objective) : TestExecution :=
  let stats := calculateExecutionStats summary bs objective
  { execution with
    comment := some (jsOrComment execution.comment summary.comment)
    totalCount := some stats.totalCount
    acceptedCount := some stats.acceptedCount
    averageScore := some stats.averageScore
    averageRelativeScore := some stats.averageRelativeScore
    maxExecutionTime := some stats.maxExecutionTime }

/-- Model of `ExecutionRepository.findById` (lines 93-132).  The source reads the two
files first and checks directory existence last; since a file can only exist
inside an existing directory, looking the directory up first is equivalent
and the merge logic is verbatim: a valid metadata file seeds the record, a
summary (if any) is merged on top (synthesizing a minimal Completed record
when no valid metadata exists), and the function returns `none` when the
directory is missing. -/
def findById (bs : List (ℤ × ℚ)) (objective : Objective)
    (st : List RunDir) (id : String) : Option TestExecution :=
  match findDir st id with
  | none => none
  | some d =>
      let execution : Option TestExecution :=
        match d.info with
        | .valid rec => some rec
        | _ => none
      match d.summary with
      | none => execution
      | some s =>
          some (mergeWithSummary (execution.getD (synthRecord id)) s bs objective)

/-- Model of `ExecutionRepository.save` (lines 76-87): create the run directory if
needed and write the validated record to `execution_info.json`.  (The model
assumes the record passes `TestExecutionSchema` validation, which the
in-model records always do.) -/
def saveExec (st : List RunDir) (e : TestExecution) : List RunDir :=
  if st.any (fun d => d.id = e.id) then
    st.map (fun d => if d.id = e.id then { d with info := .valid e } else d)
  else
    st ++ [{ id := e.id, info := .valid e, summary := none }]

/-- Model of `ExecutionRepository.findAll` (lines 172-204), before sorting: every
directory whose `findById` yields a record. -/
def findAllRaw (bs : List (ℤ × ℚ)) (objective : Objective)
    (st : List RunDir) : List TestExecution :=
  st.filterMap (fun d => findById bs objective st d.id)

/-- The `findAll` comparator: descending by `startTime` (missing time sorts
as epoch 0).  The source uses the stable Array.prototype.sort; insertion
sort is a stable sort with the same ordering semantics. -/
def findAll (bs : List (ℤ × ℚ)) (objective : Objective)
    (st : List RunDir) : List TestExecution :=
  (findAllRaw bs objective st).insertionSort
    (fun a b => (b.startTime.getD 0) ≤ (a.startTime.getD 0))

/-- Model of `ExecutionRepository.updateStatus` (lines 209-219): load, set status,
save; a missing run is skipped. -/
def repoUpdateStatus (bs : List (ℤ × ℚ)) (objective : Objective)
    (st : List RunDir) (id : String) (status : Status) : List RunDir :=
  match findById bs objective st id with
  | none => st
  | some e => saveExec st { e with status := status }

/-- Model of `Math.abs` on a JS number. -/
def mathAbs (q : ℚ) : ℚ :=
  if q < 0 then -q else q

/-- One iteration of the loop in
`ScoreAnalysisService.recalculateAllRelativeScores` (lines 183-205): re-read
the run's summary from disk, recompute the average relative score, and save
the record only when it moved by more than the 0.001 epsilon. -/
def recalcStep (bs : List (ℤ × ℚ)) (objective : Objective)
    (acc : List RunDir × ℕ) (exe : TestExecution) : List RunDir × ℕ :=
  match (findDir acc.1 exe.id).bind (fun d => d.summary) with
  | none => acc
  | some s =>
      match s.cases with
      | none => acc
      | some l =>
          let p := relFold bs objective l
          let newAvg : ℚ := if p.2 ≠ 0 then p.1 / (p.2 : ℚ) else 0
          if 1 / 1000 < mathAbs (newAvg - (exe.averageRelativeScore.getD 0)) then
            (saveExec acc.1 { exe with averageRelativeScore := some newAvg }, acc.2 + 1)
          else acc

/-- Model of `ScoreAnalysisService.recalculateAllRelativeScores` (lines 170-209):
fetch the run list once, then fold `recalcStep` over it, threading the store
and the count of updated runs.  The best-score table and objective are the
config loaded once up front. -/
def recalculateAllRelativeScores (bs : List (ℤ × ℚ)) (objective : Objective)
    (st : List RunDir) : List RunDir × ℕ :=
  (findAll bs objective st).foldl (recalcStep bs objective) (st, 0)

/-- Observable side effects of the orchestration layer, in emission order. -/
inductive Effect where
  | saved (e : TestExecution)
  | recalcDone (updated : ℕ)
  | emitStatus (id : String) (status : Status) (e : TestExecution)
  | emitProgress (id : String) (e : TestExecution)
deriving DecidableEq, Repr

/-- Model of `ExecutionService.updateExecutionStatus` (lines 278-287): update through
the repository, re-read, and emit a status event when the run exists. -/
def updateExecutionStatus (bs : List (ℤ × ℚ)) (objective : Objective)
    (st : List RunDir) (id : String) (status : Status) :
    List RunDir × List Effect :=
  let st1 := repoUpdateStatus bs objective st id status
  match findById bs objective st1 id with
  | none => (st1, [])
  | some e => (st1, [.emitStatus id status e])

/-- Model of `ExecutionService.finalizeExecution` (lines 207-264): re-read the merged
record, save it with the terminal status; for `COMPLETED`, run the
history-wide relative-score reconciliation, re-read the record from the
store, and only then emit the status and progress events with the re-read
data; for other statuses emit immediately; when the run is missing, fall
back to `updateExecutionStatus`. -/
def finalizeExecution (bs : List (ℤ × ℚ)) (objective : Objective)
    (st : List RunDir) (id : String) (status : Status) :
    List RunDir × List Effect :=
  match findById bs objective st id with
  | none => updateExecutionStatus bs objective st id status
  | some finalExecution =>
      let fin1 := { finalExecution with status := status }
      let st1 := saveExec st fin1
      if status = .COMPLETED then
        let r := recalculateAllRelativeScores bs objective st1
        match findById bs objective r.1 id with
        | none => (r.1, [.saved fin1, .recalcDone r.2])
        | some upd =>
            let upd1 := { upd with status := status }
            (r.1, [.saved fin1, .recalcDone r.2,
                   .emitStatus id status upd1, .emitProgress id upd1])
      else
        (st1, [.saved fin1, .emitStatus id status fin1, .emitProgress id fin1])

/-- Model of `ProcessManager.killProcess` (`src/infrastructure/ProcessManager.ts`
lines 187-195) over the active-process table (the set of run ids with a
tracked subprocess): when the id is tracked, send SIGKILL (third component:
the ids signalled), drop it from the table and return `true`; otherwise
return `false` and leave everything untouched. -/
def killProcess (table : List String) (id : String) :
    Bool × List String × List String :=
  if table.contains id then (true, table.erase id, [id])
  else (false, table, [])

/-- The filesystem state ConfigService manipulates: the live config file and
its backup, as abstract contents. -/
structure ConfigFs where
  config : ℕ
  backup : Option ℕ
deriving DecidableEq, Repr

/-- Model of `ConfigService.restoreConfig` (lines 92-101): if the backup exists, copy
it over the live file and report `true`; otherwise report `false`. -/
def restoreConfig (fs : ConfigFs) : ConfigFs × Bool :=
  match fs.backup with
  | some b => ({ fs with config := b }, true)
  | none => (fs, false)

/-- State touched by `ExecutionService.stopExecution`: the active-process
table, the config files and the results store. -/
structure OrchState where
  table : List String
  cfg : ConfigFs
  store : List RunDir
deriving DecidableEq, Repr

/-- Model of `ExecutionService.stopExecution` (lines 89-106): kill the tracked
process if any; only when a process was actually killed, restore the config
from backup and update the record to `CANCELLED`. -/
def stopExecution (bs : List (ℤ × ℚ)) (objective : Objective)
    (s : OrchState) (id : String) : OrchState × List Effect :=
  let k := killProcess s.table id
  if k.1 then
    let rc := restoreConfig s.cfg
    let u := updateExecutionStatus bs objective s.store id .CANCELLED
    ({ table := k.2.1, cfg := rc.1, store := u.1 }, u.2)
  else (s, [])

/-- The `[general]` section of `pahcer_config.toml` (`PahcerConfig` interface in
`src/services/ConfigService.ts`). -/
structure GeneralSection where
  version : Option String
deriving DecidableEq, Repr

/-- The `[problem]` section of `pahcer_config.toml`. -/
structure ProblemSection where
  problem_name : Option String
  objective : Option Objective
  score_regex : Option String
deriving DecidableEq, Repr

/-- The `[test]` section of `pahcer_config.toml`. -/
structure TestSection where
  start_seed : Option ℤ
  end_seed : Option ℤ
  threads : Option ℤ
  out_dir : Option String
  compile_steps : Option (List String)
  test_steps : Option (List String)
deriving DecidableEq, Repr

/-- The whole parsed `pahcer_config.toml`. -/
structure PahcerConfig where
  general : Option GeneralSection
  problem : Option ProblemSection
  test : Option TestSection
deriving DecidableEq, Repr

/-- The empty `[test]` section, which `{ ...currentConfig.test }` produces
when the section is absent. -/
def emptyTestSection : TestSection :=
  { start_seed := none, end_seed := none, threads := none
    out_dir := none, compile_steps := none, test_steps := none }

/-- The structured transformation performed by
`ConfigService.updateConfigForTest` (lines 107-136) between its read and its
write of the config file: spread the current config, replacing only the
`test` section's `start_seed`/`end_seed` (spreading the old `test` section
underneath).  TOML serialisation round-trips are abstracted as identity. -/
def updateConfigForTest (currentConfig : PahcerConfig)
    (testCaseCount startSeed : ℤ) : PahcerConfig :=
  { currentConfig with
    test := some { (currentConfig.test.getD emptyTestSection) with
                   start_seed := some startSeed
                   end_seed := some (startSeed + testCaseCount) } }

/-- Atomic actions of the per-run orchestration in `ExecutionService`
(`startExecution` / `executePacher` / `stopExecution`), used to model the
asynchronous control flow as traces.  `doBackup ok` is
`ConfigService.backupConfig` (whose result `updateConfigForTest` ignores),
`writeTest` the config write of `updateConfigForTest`, `saveStatus` any save
of a record with the given status, `restoreCfg` is
`ConfigService.restoreConfig`, and `spawnProc`/`closeProc`/`killProc` mark
subprocess lifecycle points. -/
inductive RunAction where
  | doBackup (ok : Bool)
  | writeTest
  | saveStatus (st : Status)
  | spawnProc
  | closeProc
  | killProc
  | restoreCfg
deriving DecidableEq, Repr

/-- Machine state for the per-run trace semantics: the config file content,
the backup file, and the sequence of statuses saved for the run, each paired
with the config content at the moment the status was recorded. -/
structure MState where
  config : ℕ
  backup : Option ℕ
  history : List (Status × ℕ)
deriving DecidableEq, Repr

/-- Effect of one atomic action on the machine state.  `mutate` is the
config rewrite `updateConfigForTest` performs (seed-range update), kept
abstract. -/
def stepA (mutate : ℕ → ℕ) (s : MState) : RunAction → MState
  | .doBackup ok => if ok then { s with backup := some s.config } else s
  | .writeTest => { s with config := mutate s.config }
  | .saveStatus st => { s with history := s.history ++ [(st, s.config)] }
  | .spawnProc => s
  | .closeProc => s
  | .killProc => s
  | .restoreCfg =>
      match s.backup with
      | some b => { s with config := b }
      | none => s

/-- Run a list of actions from a state. -/
def execA (mutate : ℕ → ℕ) (s : MState) (l : List RunAction) : MState :=
  l.foldl (stepA mutate) s

/-- Common prefix of every run: `startExecution` calls
`updateConfigForTest` (backup, then write), saves the `IDLE` record, and
`executePacher` sets `RUNNING` and spawns the subprocess. -/
def preTrace (bk : Bool) : List RunAction :=
  [.doBackup bk, .writeTest, .saveStatus .IDLE, .saveStatus .RUNNING, .spawnProc]

/-- The actions `stopExecution` performs after `killProcess` succeeded:
restore the config, then save `CANCELLED`. -/
def stopThread : List RunAction :=
  [.restoreCfg, .saveStatus .CANCELLED]

/-- The actions the `executePacher` continuation performs once the killed
subprocess closes (exit code non-zero): resolve, restore the config, and
finalize with `FAILED`. -/
def mainAfterKill : List RunAction :=
  [.closeProc, .restoreCfg, .saveStatus .FAILED]

/-- Relation `Interleave l₁ l₂ z`: `z` is an interleaving of `l₁` and `l₂`, i.e. a
merge preserving the relative order within each list.  Models the possible
schedules of the two async continuations. -/
inductive Interleave : List RunAction → List RunAction → List RunAction → Prop where
  | nil : Interleave [] [] []
  | left {x xs ys zs} : Interleave xs ys zs → Interleave (x :: xs) ys (x :: zs)
  | right {y xs ys zs} : Interleave xs ys zs → Interleave xs (y :: ys) (y :: zs)

/-- The complete traces a single run can produce, per the control flow of
`ExecutionService.executePacher` (lines 152-202) and `stopExecution` (lines
89-106):
  * `completed`: process exits 0 → restore config → finalize `COMPLETED`;
  * `failed`: process exits non-zero → restore config → finalize `FAILED`;
  * `errored`: an exception inside the `try` → catch restores the config and
    finalizes `FAILED`;
  * `stopped`: `stopExecution` kills the live process; its restore +
    `CANCELLED` update interleaves arbitrarily with the main continuation,
    which sees the killed process close unsuccessfully, restores the config
    and finalizes `FAILED`. -/
inductive RunTrace (bk : Bool) : List RunAction → Prop where
  | completed :
      RunTrace bk (preTrace bk ++ [.closeProc, .restoreCfg, .saveStatus .COMPLETED])
  | failed :
      RunTrace bk (preTrace bk ++ [.closeProc, .restoreCfg, .saveStatus .FAILED])
  | errored :
      RunTrace bk (preTrace bk ++ [.restoreCfg, .saveStatus .FAILED])
  | stopped (z : List RunAction) :
      Interleave stopThread mainAfterKill z →
      RunTrace bk (preTrace bk ++ .killProc :: z)

/-- Selector for the entries of `best_scores.json` that end up under a given
seed: the key must `parseInt` to that seed and the value must be a number. -/
def bestSel (seed : ℤ) (p : String × JsonValue) : Option ℚ :=
  match jsParseInt p.1, p.2 with
  | some i, .num q => if i = seed then some q else none
  | _, _ => none


/-- The cases the source's accumulation loop actually selects: non-null
score and an existing best-score entry for the seed. -/
def qualifyingCases (bs : List (ℤ × ℚ)) (l : List SummaryCase) : List SummaryCase :=
  l.filter (fun c => c.score.isSome && (lookupBest bs c.seed).isSome)

/-- The relative score the loop adds for a selected case. -/
def caseRelScore (bs : List (ℤ × ℚ)) (objective : Objective) (c : SummaryCase) : ℚ :=
  calculateRelativeScore (c.score.getD 0) ((lookupBest bs c.seed).getD 0) objective

/-- Follows the words of claim C4 / spec §4.4, NOT the source: the mean of
per-case relative scores over exactly the cases with a positive score and an
existing best-score entry, 0 when none qualify.  Used only to compare the
claim against `calculateExecutionStats`. -/
def specAverageRelativeScore (summaryData : SummaryJson)
    (bs : List (ℤ × ℚ)) (objective : Objective) : ℚ :=
  match summaryData.cases with
  | some l =>
      let q := l.filter
        (fun c => (c.score.elim false (fun sc => decide (0 < sc))) &&
          (lookupBest bs c.seed).isSome)
      if q = [] then 0 else ((q.map (caseRelScore bs objective)).sum) / (q.length : ℚ)
  | none => 0

/-- A persisted run record used by the C5 scenarios: a completed run whose
stored aggregates are all zero. -/
def c5Record : TestExecution :=
  { id := "run1", status := .COMPLETED, startTime := some 0, comment := some ""
    averageScore := some 0, averageRelativeScore := some 0, acceptedCount := some 0
    totalCount := some 0, maxExecutionTime := some 0 }

/-- A summary whose `case_count` is 0 even though its cases array holds a
scoring case (external tools may write such artifacts; the repository treats
them as untrusted data). -/
def c5Summary : SummaryJson :=
  { case_count := some 0, total_score := some 500, max_execution_time := some 1
    comment := none, wa_seeds := some []
    cases := some [{ seed := 1, score := some 500, execution_time := some 1
                     error_message := none }] }

/-- The same summary with a consistent positive `case_count`. -/
def c5SummaryOk : SummaryJson :=
  { c5Summary with case_count := some 1 }

/-- One-run store with the inconsistent summary. -/
def c5Store : List RunDir :=
  [{ id := "run1", info := .valid c5Record, summary := some c5Summary }]

/-- One-run store with the consistent summary. -/
def c5StoreOk : List RunDir :=
  [{ id := "run1", info := .valid c5Record, summary := some c5SummaryOk }]

/-! ## C3: calculateRelativeScore -/

/-- C3: for positive `score` and `best`, `calculateRelativeScore` returns
`score/best` under `Max` and `best/score` under `Min`; whenever either input
is non-positive it returns `0` for either objective. -/
theorem calculateRelativeScore_spec (score best : ℚ) :
    (0 < score → 0 < best →
      calculateRelativeScore score best .Max = score / best ∧
      calculateRelativeScore score best .Min = best / score) ∧
    (score ≤ 0 ∨ best ≤ 0 →
      calculateRelativeScore score best .Max = 0 ∧
      calculateRelativeScore score best .Min = 0) := by
  constructor
  · intro hs hb
    have h : ¬(score ≤ 0 ∨ best ≤ 0) := by
      push_neg
      exact ⟨hs, hb⟩
    simp [calculateRelativeScore, h]
  · intro h
    simp [calculateRelativeScore, h]

/-- Witness for C3 at `score = 500`, `best = 1000` and at `score = -1`,
`best = 3`. -/
theorem calculateRelativeScore_spec_witness :
    (calculateRelativeScore 500 1000 .Max = 500 / 1000 ∧
      calculateRelativeScore 500 1000 .Min = 1000 / 500) ∧
    (calculateRelativeScore (-1) 3 .Max = 0 ∧
      calculateRelativeScore (-1) 3 .Min = 0) :=
  ⟨(calculateRelativeScore_spec 500 1000).1 (by norm_num) (by norm_num),
   (calculateRelativeScore_spec (-1) 3).2 (by norm_num)⟩

/-! ## C7: updateConfigForTest frame property -/

/-- C7: `updateConfigForTest` sets `test.start_seed` to the requested start
seed and `test.end_seed` to start seed + count, and leaves the `general` and
`problem` sections and every other `test` field unchanged. -/
theorem updateConfigForTest_frame (cfg : PahcerConfig) (startSeed count : ℤ)
    (hs : 0 ≤ startSeed) (hc : 1 ≤ count) :
    (updateConfigForTest cfg count startSeed).general = cfg.general ∧
    (updateConfigForTest cfg count startSeed).problem = cfg.problem ∧
    ∃ t : TestSection,
      (updateConfigForTest cfg count startSeed).test = some t ∧
      t.start_seed = some startSeed ∧
      t.end_seed = some (startSeed + count) ∧
      t.threads = (cfg.test.getD emptyTestSection).threads ∧
      t.out_dir = (cfg.test.getD emptyTestSection).out_dir ∧
      t.compile_steps = (cfg.test.getD emptyTestSection).compile_steps ∧
      t.test_steps = (cfg.test.getD emptyTestSection).test_steps := by
  refine ⟨rfl, rfl, _, rfl, rfl, rfl, rfl, rfl, rfl, rfl⟩

/-- Witness for C7 at a concrete config, `startSeed = 0`, `count = 100`. -/
theorem updateConfigForTest_frame_witness :
    (updateConfigForTest
        { general := some { version := some "0.1.0" }
          problem := some { problem_name := some "ahc", objective := some .Min
                            score_regex := some "Score = (?<score>\\d+)" }
          test := some { start_seed := some 7, end_seed := some 9
                         threads := some 4, out_dir := some "tools/out"
                         compile_steps := some ["cargo build"]
                         test_steps := some ["cargo run"] } }
        100 0).general = some { version := some "0.1.0" } ∧
    (0 : ℤ) ≤ 0 ∧ (1 : ℤ) ≤ 100 := by
  refine ⟨(updateConfigForTest_frame _ 0 100 ?_ ?_).1, ?_, ?_⟩ <;> norm_num

/-! ## C6: findById — "not found" versus "found but empty" -/

/-- Counterexample for C6: a run directory that exists but holds neither a
metadata file nor a summary.  `findById` returns `none` (the same value as
for a missing directory), so "found but empty" is not distinct from "not
found" as the claim requires. -/
theorem findById_null_counterexample :
    findById [] .Max [{ id := "run1", info := .absent, summary := none }] "run1"
      = none ∧
    findDir [{ id := "run1", info := .absent, summary := none }] "run1"
      = some { id := "run1", info := .absent, summary := none } := by
  constructor <;> rfl

/-! ## C10: getBestScores -/

lemma lookupBest_setScore (bs : List (ℤ × ℚ)) (k : ℤ) (v : ℚ) (j : ℤ) :
    lookupBest (setScore bs k v) j = if j = k then some v else lookupBest bs j := by
  induction bs with
  | nil =>
      by_cases h : j = k
      · simp [setScore, lookupBest, List.find?, h]
      · have h2 : ¬ k = j := fun hh => h hh.symm
        simp [setScore, lookupBest, List.find?, h, h2]
  | cons p rest ih =>
      by_cases hpk : p.1 = k
      · by_cases h : j = k
        · simp [setScore, lookupBest, List.find?, hpk, h]
        · have h2 : ¬ k = j := fun hh => h hh.symm
          have hpj : ¬ p.1 = j := by rw [hpk]; exact h2
          simp [setScore, lookupBest, List.find?, hpk, h, h2, hpj]
      · by_cases hpj : p.1 = j
        · have h : ¬ j = k := fun hh => hpk (hpj.trans hh)
          simp [setScore, lookupBest, List.find?, hpk, hpj, h]
        · by_cases h : j = k <;>
            simp_all [setScore, lookupBest, List.find?, hpk, hpj]

lemma getLast?_cons_match {α : Type} (x : α) (l : List α) :
    (x :: l).getLast? =
      match l.getLast? with
      | some y => some y
      | none => some x := by
  induction l with
  | nil => rfl
  | cons y ys ih =>
      rw [List.getLast?_cons_cons]
      cases h : (y :: ys).getLast? with
      | some z => rfl
      | none => simp at h

lemma bestSel_none_step (seed : ℤ) (p : String × JsonValue)
    (hsel : bestSel seed p = none) (acc : List (ℤ × ℚ)) :
    lookupBest
      (match jsParseInt p.1, p.2 with
       | some i, .num q => setScore acc i q
       | _, _ => acc) seed = lookupBest acc seed := by
  cases hi : jsParseInt p.1 with
  | none => cases p.2 <;> simp
  | some i =>
      cases hv : p.2 with
      | nonNumber => simp
      | num q =>
          simp only [bestSel, hi, hv] at hsel
          have hne : ¬ i = seed := by
            by_contra h
            simp [h] at hsel
          have hne2 : ¬ seed = i := fun h => hne h.symm
          rw [lookupBest_setScore]
          simp [hne2]

lemma bestSel_some_step (seed : ℤ) (p : String × JsonValue) (q0 : ℚ)
    (hsel : bestSel seed p = some q0) :
    jsParseInt p.1 = some seed ∧ p.2 = .num q0 := by
  cases hi : jsParseInt p.1 with
  | none => cases hv : p.2 <;> simp [bestSel, hi, hv] at hsel
  | some i =>
      cases hv : p.2 with
      | nonNumber => simp [bestSel, hi, hv] at hsel
      | num q =>
          simp only [bestSel, hi, hv] at hsel
          by_cases h : i = seed
          · simp [h] at hsel
            constructor
            · rw [← h]
            · rw [hsel]
          · simp [h] at hsel

lemma getBestScores_fold_lookup (entries : List (String × JsonValue)) :
    ∀ (acc : List (ℤ × ℚ)) (seed : ℤ),
      lookupBest
        (entries.foldl
          (fun acc p =>
            match jsParseInt p.1, p.2 with
            | some i, .num q => setScore acc i q
            | _, _ => acc)
          acc) seed =
      match (entries.filterMap (bestSel seed)).getLast? with
      | some q => some q
      | none => lookupBest acc seed := by
  induction entries with
  | nil => intro acc seed; rfl
  | cons p rest ih =>
      intro acc seed
      rw [List.foldl_cons, ih]
      cases hsel : bestSel seed p with
      | none =>
          rw [List.filterMap_cons, hsel, bestSel_none_step seed p hsel acc]
      | some q0 =>
          obtain ⟨h1, h2⟩ := bestSel_some_step seed p q0 hsel
          rw [List.filterMap_cons, hsel, getLast?_cons_match]
          cases hlast : (rest.filterMap (bestSel seed)).getLast? with
          | some q => rfl
          | none =>
              show lookupBest
                  (match jsParseInt p.1, p.2 with
                   | some i, .num q => setScore acc i q
                   | _, _ => acc) seed = some q0
              rw [h1, h2]
              show lookupBest (setScore acc seed q0) seed = some q0
              rw [lookupBest_setScore]
              simp

/-- C10: `getBestScores` is a total function of the read outcome: on any
read or parse failure (missing file, malformed JSON, any other error) it is
the empty table, and on success the table maps each seed to exactly the
value of the last entry whose key `parseInt`s to that seed and whose value
is a number — entries with non-integer keys or non-numeric values are
silently dropped. -/
theorem getBestScores_characterization :
    (∀ (e : String) (seed : ℤ),
        lookupBest (getBestScores (.error e)) seed = none) ∧
    (∀ (entries : List (String × JsonValue)) (seed : ℤ),
        lookupBest (getBestScores (.ok entries)) seed =
          (entries.filterMap (bestSel seed)).getLast?) := by
  constructor
  · intro e seed; rfl
  · intro entries seed
    show lookupBest
        (entries.foldl
          (fun acc p =>
            match jsParseInt p.1, p.2 with
            | some i, .num q => setScore acc i q
            | _, _ => acc)
          []) seed = (entries.filterMap (bestSel seed)).getLast?
    rw [getBestScores_fold_lookup]
    cases (entries.filterMap (bestSel seed)).getLast? <;> rfl

/-! ## C4: average relative score of calculateExecutionStats -/

lemma relFold_aux (bs : List (ℤ × ℚ)) (objective : Objective) :
    ∀ (l : List SummaryCase) (acc : ℚ × ℕ),
      (l.foldl
        (fun acc c =>
          match c.score, lookupBest bs c.seed with
          | some sc, some b => (acc.1 + calculateRelativeScore sc b objective, acc.2 + 1)
          | _, _ => acc)
        acc)
      = (acc.1 + ((qualifyingCases bs l).map (caseRelScore bs objective)).sum,
         acc.2 + (qualifyingCases bs l).length) := by
  intro l
  induction l with
  | nil => intro acc; simp [qualifyingCases]
  | cons c rest ih =>
      intro acc
      cases hsc : c.score with
      | none =>
          have hq : qualifyingCases bs (c :: rest) = qualifyingCases bs rest := by
            simp [qualifyingCases, List.filter_cons, hsc]
          rw [List.foldl_cons, hq]
          simp only [hsc]
          exact ih acc
      | some sc =>
          cases hb : lookupBest bs c.seed with
          | none =>
              have hq : qualifyingCases bs (c :: rest) = qualifyingCases bs rest := by
                simp [qualifyingCases, List.filter_cons, hsc, hb]
              rw [List.foldl_cons, hq]
              simp only [hsc, hb]
              exact ih acc
          | some b =>
              have hq : qualifyingCases bs (c :: rest) =
                  c :: qualifyingCases bs rest := by
                simp [qualifyingCases, List.filter_cons, hsc, hb]
              have hrel : caseRelScore bs objective c =
                  calculateRelativeScore sc b objective := by
                simp [caseRelScore, hsc, hb]
              rw [List.foldl_cons, hq]
              simp only [hsc, hb]
              rw [ih]
              simp [hrel, add_assoc, add_comm, add_left_comm]

lemma relFold_eq (bs : List (ℤ × ℚ)) (objective : Objective) (l : List SummaryCase) :
    relFold bs objective l =
      (((qualifyingCases bs l).map (caseRelScore bs objective)).sum,
       (qualifyingCases bs l).length) := by
  unfold relFold
  rw [relFold_aux]
  simp

/-- Counterexample for C4: a summary with a positive-score case (seed 1,
score 500) and a zero-score case (seed 2, score 0), both seeds present in
the best-score table.  The code averages over BOTH cases (the zero-score
case contributes 0 to the numerator but 1 to the divisor), yielding 1/4,
while the claim's mean over positive-score cases only is 1/2. -/
theorem avgRel_positive_filter_counterexample :
    (calculateExecutionStats
        { case_count := some 2, total_score := some 500
          max_execution_time := some 1, comment := none, wa_seeds := some []
          cases := some [{ seed := 1, score := some 500, execution_time := some 1
                           error_message := none },
                         { seed := 2, score := some 0, execution_time := some 1
                           error_message := none }] }
        [(1, 1000), (2, 800)] .Max).averageRelativeScore = 1 / 4 ∧
    specAverageRelativeScore
        { case_count := some 2, total_score := some 500
          max_execution_time := some 1, comment := none, wa_seeds := some []
          cases := some [{ seed := 1, score := some 500, execution_time := some 1
                           error_message := none },
                         { seed := 2, score := some 0, execution_time := some 1
                           error_message := none }] }
        [(1, 1000), (2, 800)] .Max = 1 / 2 ∧
    (1 / 4 : ℚ) ≠ 1 / 2 := by
  refine ⟨?_, ?_, by norm_num⟩
  · norm_num [calculateExecutionStats, relFold, lookupBest, List.find?,
      calculateRelativeScore]
  · norm_num [specAverageRelativeScore, caseRelScore, lookupBest, List.find?,
      calculateRelativeScore, List.filter]

/-- C4 amended: provided the summary's stored `case_count` is positive and a
cases array is present, the computed average relative score is the mean of
per-case relative scores over exactly the cases with a NON-NULL score and an
existing best-score entry for the seed — a case with a non-null but
non-positive score contributes a relative score of 0 to the numerator while
still counting in the divisor; null-score cases and cases without a
best-score entry contribute to neither; the result is 0 when `case_count` is
not positive, when no cases array exists, or when no case qualifies. -/
theorem calculateExecutionStats_avgRel_eq (summaryData : SummaryJson)
    (bs : List (ℤ × ℚ)) (objective : Objective) :
    (calculateExecutionStats summaryData bs objective).averageRelativeScore =
      if 0 < summaryData.case_count.getD 0 then
        match summaryData.cases with
        | some l =>
            if qualifyingCases bs l = [] then 0
            else (((qualifyingCases bs l).map (caseRelScore bs objective)).sum) /
              ((qualifyingCases bs l).length : ℚ)
        | none => 0
      else 0 := by
  by_cases hc : 0 < summaryData.case_count.getD 0
  · cases hcs : summaryData.cases with
    | none => simp [calculateExecutionStats, hc, hcs]
    | some l =>
        by_cases hq : qualifyingCases bs l = []
        · simp [calculateExecutionStats, hc, hcs, relFold_eq, hq]
        · have hlen : (qualifyingCases bs l).length ≠ 0 := by
            simpa [List.length_eq_zero] using hq
          simp [calculateExecutionStats, hc, hcs, relFold_eq, hq, hlen]
  · simp [calculateExecutionStats, hc]

/-- C6 amended: `findById` returns `none` exactly when the run directory does
not exist, or when it exists but carries neither valid (schema-passing)
metadata nor a summary artifact; i.e. "found but empty" is also reported as
`none`, not as a distinct value.  (When the directory exists and a summary
is present, a record is always returned, synthesized if necessary.) -/
theorem findById_eq_none_iff (bs : List (ℤ × ℚ)) (objective : Objective)
    (st : List RunDir) (id : String) :
    findById bs objective st id = none ↔
      (findDir st id = none ∨
        ∃ d : RunDir, findDir st id = some d ∧
          (d.info = .absent ∨ d.info = .invalid) ∧ d.summary = none) := by
  unfold findById
  cases hd : findDir st id with
  | none => simp
  | some d =>
      cases hi : d.info <;> cases hs : d.summary <;>
        simp_all [InfoState.absent, InfoState.invalid]


/-! ## C9: killProcess / stopExecution no-op on untracked ids -/

/-- C9: for a run id with no tracked live process, `killProcess` returns
`false` without touching the table and without signalling anything, and
`stopExecution` is a complete no-op (no config restore, no record change, no
events); for a tracked id, `killProcess` sends SIGKILL to it, removes it
from the table, and returns `true`. -/
theorem stop_noop_and_kill (bs : List (ℤ × ℚ)) (objective : Objective)
    (s : OrchState) (id : String) :
    (id ∉ s.table →
      killProcess s.table id = (false, s.table, []) ∧
      stopExecution bs objective s id = (s, [])) ∧
    (id ∈ s.table →
      killProcess s.table id = (true, s.table.erase id, [id])) := by
  constructor
  · intro h
    constructor
    · simp [killProcess, h]
    · simp [stopExecution, killProcess, h]
  · intro h
    simp [killProcess, h]

/-- Witness for C9: an untracked id on an empty table and a tracked id on a
singleton table. -/
theorem stop_noop_and_kill_witness :
    (killProcess [] "run1" = (false, [], []) ∧
      stopExecution [] .Max
        { table := [], cfg := { config := 0, backup := none }, store := [] }
        "run1"
        = ({ table := [], cfg := { config := 0, backup := none }, store := [] }, [])) ∧
    killProcess ["run1"] "run1" = (true, [], ["run1"]) :=
  ⟨(stop_noop_and_kill [] .Max
      { table := [], cfg := { config := 0, backup := none }, store := [] }
      "run1").1 (by simp),
   (stop_noop_and_kill [] .Max
      { table := ["run1"], cfg := { config := 0, backup := none }, store := [] }
      "run1").2 (by simp)⟩

/-! ## C8: Completed is emitted only after reconciliation -/

/-- C8: in the effect trace of `finalizeExecution` for a successful run,
every status event carrying `COMPLETED` occurs strictly after the
history-wide relative-score reconciliation effect, and the record it carries
is the record re-read from the post-reconciliation store (with the
`COMPLETED` status set on it) — never the pre-reconciliation record. -/
theorem completed_emit_after_recalc (bs : List (ℤ × ℚ)) (objective : Objective)
    (st : List RunDir) (id : String) (i : ℕ) (rec : TestExecution)
    (h : ((finalizeExecution bs objective st id .COMPLETED).2)[i]? =
      some (.emitStatus id .COMPLETED rec)) :
    (∃ j, j < i ∧ ∃ n,
      ((finalizeExecution bs objective st id .COMPLETED).2)[j]? =
        some (.recalcDone n)) ∧
    (∃ r, findById bs objective (finalizeExecution bs objective st id .COMPLETED).1 id
        = some r ∧ rec = { r with status := .COMPLETED }) := by
  rcases h1 : findById bs objective st id with _ | fin
  · have hfin : finalizeExecution bs objective st id .COMPLETED = (st, []) := by
      simp [finalizeExecution, h1, updateExecutionStatus, repoUpdateStatus]
    rw [hfin] at h
    simp at h
  · rcases h2 : findById bs objective
        (recalculateAllRelativeScores bs objective
          (saveExec st { fin with status := .COMPLETED })).1 id with _ | upd
    · have hfin : finalizeExecution bs objective st id .COMPLETED =
          ((recalculateAllRelativeScores bs objective
              (saveExec st { fin with status := .COMPLETED })).1,
           [.saved { fin with status := .COMPLETED },
            .recalcDone (recalculateAllRelativeScores bs objective
              (saveExec st { fin with status := .COMPLETED })).2]) := by
        simp [finalizeExecution, h1, h2]
      rw [hfin] at h
      match i, h with
      | 0, h => simp at h
      | 1, h => simp at h
      | (n + 2), h => simp at h
    · have hfin : finalizeExecution bs objective st id .COMPLETED =
          ((recalculateAllRelativeScores bs objective
              (saveExec st { fin with status := .COMPLETED })).1,
           [.saved { fin with status := .COMPLETED },
            .recalcDone (recalculateAllRelativeScores bs objective
              (saveExec st { fin with status := .COMPLETED })).2,
            .emitStatus id .COMPLETED { upd with status := .COMPLETED },
            .emitProgress id { upd with status := .COMPLETED }]) := by
        simp [finalizeExecution, h1, h2]
      rw [hfin] at h ⊢
      match i, h with
      | 0, h => simp at h
      | 1, h => simp at h
      | 2, h =>
          simp at h
          refine ⟨⟨1, by norm_num, ⟨(recalculateAllRelativeScores bs objective
            (saveExec st { fin with status := .COMPLETED })).2, by simp⟩⟩,
            ⟨upd, ?_, ?_⟩⟩
          · exact h2
          · exact h.symm
      | (n + 3), h =>
          match n, h with
          | 0, h => simp at h
          | (m + 1), h => simp at h

/-- Witness for C8: a store with one completed run (valid metadata, no
summary); `finalizeExecution` emits the `COMPLETED` status event at index 2,
after the reconciliation effect at index 1, carrying the re-read record. -/
theorem completed_emit_after_recalc_witness :
    (∃ j, j < 2 ∧ ∃ n,
      ((finalizeExecution [] .Max
        [{ id := "run1"
           info := .valid
             { id := "run1", status := .COMPLETED, startTime := some 5
               comment := some "x", averageScore := some 1
               averageRelativeScore := some 1, acceptedCount := some 1
               totalCount := some 1, maxExecutionTime := some 1 }
           summary := none }]
        "run1" .COMPLETED).2)[j]? = some (.recalcDone n)) ∧
    (∃ r, findById [] .Max
        (finalizeExecution [] .Max
          [{ id := "run1"
             info := .valid
               { id := "run1", status := .COMPLETED, startTime := some 5
                 comment := some "x", averageScore := some 1
                 averageRelativeScore := some 1, acceptedCount := some 1
                 totalCount := some 1, maxExecutionTime := some 1 }
             summary := none }]
          "run1" .COMPLETED).1 "run1" = some r ∧
      ({ id := "run1", status := .COMPLETED, startTime := some 5
         comment := some "x", averageScore := some 1
         averageRelativeScore := some 1, acceptedCount := some 1
         totalCount := some 1, maxExecutionTime := some 1 } : TestExecution)
        = { r with status := .COMPLETED }) :=
  completed_emit_after_recalc [] .Max
    [{ id := "run1"
       info := .valid
         { id := "run1", status := .COMPLETED, startTime := some 5
           comment := some "x", averageScore := some 1
           averageRelativeScore := some 1, acceptedCount := some 1
           totalCount := some 1, maxExecutionTime := some 1 }
       summary := none }]
    "run1" 2
    { id := "run1", status := .COMPLETED, startTime := some 5
      comment := some "x", averageScore := some 1
      averageRelativeScore := some 1, acceptedCount := some 1
      totalCount := some 1, maxExecutionTime := some 1 }
    (by rfl)

/-! ## C5: recalculateAllRelativeScores idempotence -/

lemma findDir_eq_of_nodup (st : List RunDir) (d : RunDir)
    (hnd : (st.map RunDir.id).Nodup) (hd : d ∈ st) :
    findDir st d.id = some d := by
  induction st with
  | nil => cases hd
  | cons h t ih =>
      rcases List.mem_cons.mp hd with rfl | hdt
      · simp [findDir, List.find?]
      · have hne : ¬ h.id = d.id := by
          have hnotin : h.id ∉ t.map RunDir.id := (List.nodup_cons.mp hnd).1
          intro he
          exact hnotin (he ▸ List.mem_map_of_mem RunDir.id hdt)
        have ht : (t.map RunDir.id).Nodup := (List.nodup_cons.mp hnd).2
        simp only [findDir, List.find?, hne, decide_eq_true_eq, decide_eq_false hne]
        exact ih ht hdt

lemma recalcStep_noop (bs : List (ℤ × ℚ)) (objective : Objective)
    (st : List RunDir)
    (hnd : (st.map RunDir.id).Nodup)
    (hinfo : ∀ d ∈ st, ∀ e : TestExecution, d.info = .valid e → e.id = d.id)
    (hcc : ∀ d ∈ st, ∀ s : SummaryJson, d.summary = some s →
      s.cases.isSome → 0 < s.case_count.getD 0)
    (exe : TestExecution) (d : RunDir) (hd : d ∈ st)
    (hfe : findById bs objective st d.id = some exe) (n : ℕ) :
    recalcStep bs objective (st, n) exe = (st, n) := by
  have hfd : findDir st d.id = some d := findDir_eq_of_nodup st d hnd hd
  simp only [findById, hfd] at hfe
  cases hsum : d.summary with
  | none =>
      simp only [hsum] at hfe
      cases hinf : d.info with
      | valid rec =>
          simp only [hinf] at hfe
          have hid : exe.id = d.id := by
            cases hfe
            exact hinfo d hd exe hinf
          simp only [recalcStep, hid, hfd, hsum, Option.bind]
      | absent => rw [hinf] at hfe; cases hfe
      | invalid => rw [hinf] at hfe; cases hfe
  | some s =>
      simp only [hsum] at hfe
      have hid : exe.id = d.id := by
        cases hfe
        cases hinf : d.info with
        | valid rec =>
            simp only [hinf, Option.getD]
            exact hinfo d hd rec hinf
        | absent => simp [hinf, mergeWithSummary, synthRecord]
        | invalid => simp [hinf, mergeWithSummary, synthRecord]
      have havg : exe.averageRelativeScore =
          some (calculateExecutionStats s bs objective).averageRelativeScore := by
        cases hfe
        rfl
      cases hcases : s.cases with
      | none => simp only [recalcStep, hid, hfd, hsum, Option.bind, hcases]
      | some l =>
          have hpos : 0 < s.case_count.getD 0 :=
            hcc d hd s hsum (by simp [hcases])
          have hstats : (calculateExecutionStats s bs objective).averageRelativeScore =
              (if (relFold bs objective l).2 ≠ 0 then
                (relFold bs objective l).1 / ((relFold bs objective l).2 : ℚ)
               else 0) := by
            simp [calculateExecutionStats, hpos, hcases]
          simp only [recalcStep, hid, hfd, hsum, Option.bind, hcases]
          rw [havg, hstats]
          simp [mathAbs]

lemma foldl_recalcStep_noop (bs : List (ℤ × ℚ)) (objective : Objective)
    (st : List RunDir) :
    ∀ (l : List TestExecution),
      (∀ exe ∈ l, ∀ n : ℕ, recalcStep bs objective (st, n) exe = (st, n)) →
      ∀ n : ℕ, l.foldl (recalcStep bs objective) (st, n) = (st, n) := by
  intro l
  induction l with
  | nil => intro _ n; rfl
  | cons e t ih =>
      intro h n
      rw [List.foldl_cons, h e (List.mem_cons_self e t) n]
      exact ih (fun exe hexe n => h exe (List.mem_cons_of_mem e hexe) n) n

/-- C5 amended: `recalculateAllRelativeScores` leaves the store untouched and
performs zero saves — on the first pass and hence on every later pass —
PROVIDED every persisted summary that carries a cases array also records a
positive `case_count` (then the average merged into each record on read
equals the recomputed one exactly).  Without that proviso idempotence fails:
a summary with qualifying cases but a zero/absent `case_count` is re-saved
on every pass, because the saved average is overridden by the
summary-derived recomputation on the next read (see the counterexample). -/
theorem recalc_no_updates_of_positive_case_count (bs : List (ℤ × ℚ))
    (objective : Objective) (st : List RunDir)
    (hnd : (st.map RunDir.id).Nodup)
    (hinfo : ∀ d ∈ st, ∀ e : TestExecution, d.info = .valid e → e.id = d.id)
    (hcc : ∀ d ∈ st, ∀ s : SummaryJson, d.summary = some s →
      s.cases.isSome → 0 < s.case_count.getD 0) :
    recalculateAllRelativeScores bs objective st = (st, 0) := by
  unfold recalculateAllRelativeScores
  apply foldl_recalcStep_noop
  intro exe hexe n
  have hraw : exe ∈ findAllRaw bs objective st := by
    unfold findAll at hexe
    exact (List.mem_insertionSort _).mp hexe
  rcases List.mem_filterMap.mp hraw with ⟨d, hd, hfe⟩
  exact recalcStep_noop bs objective st hnd hinfo hcc exe d hd hfe n

/-- Witness for C5 (amended): on a one-run store whose summary records
`case_count = 1` consistently with its single case, reconciliation performs
zero saves and leaves the store untouched. -/
theorem recalc_no_updates_witness :
    recalculateAllRelativeScores [(1, 1000)] .Max c5StoreOk = (c5StoreOk, 0) :=
  recalc_no_updates_of_positive_case_count [(1, 1000)] .Max c5StoreOk
    (by simp [c5StoreOk])
    (by
      intro d hd e he
      simp only [c5StoreOk, List.mem_singleton] at hd
      subst hd
      simp only [c5StoreOk] at he
      injection he with h
      rw [← h]
      rfl)
    (by
      intro d hd s hs _
      simp only [c5StoreOk, List.mem_singleton] at hd
      subst hd
      simp only at hs
      injection hs with h
      rw [← h]
      norm_num [c5SummaryOk, c5Summary])

/-- Counterexample for C5: on a store whose single run has a summary with
`case_count = 0` but one scoring case (seed 1, score 500, best 1000), the
SECOND pass of `recalculateAllRelativeScores` still performs one save — the
first pass's saved average (1/2) is overridden back to 0 by the
summary-derived recomputation `findById` performs on read, so the run is
re-saved on every pass and the function is not idempotent. -/
theorem recalc_idempotent_counterexample :
    (recalculateAllRelativeScores [(1, 1000)] .Max
      (recalculateAllRelativeScores [(1, 1000)] .Max c5Store).1).2 = 1 ∧
    (1 : ℕ) ≠ 0 := by
  constructor
  · norm_num [recalculateAllRelativeScores, findAll, findAllRaw, findById, findDir,
      List.find?, mergeWithSummary, calculateExecutionStats, relFold, lookupBest,
      calculateRelativeScore, recalcStep, saveExec, List.insertionSort,
      List.orderedInsert, c5Store, c5Record, c5Summary, synthRecord, jsOrComment,
      strTruthy, mathAbs]
  · norm_num

/-! ## C1 and C2: config round-trip and status monotonicity over run traces -/

lemma interleave_nil_left {ys zs : List RunAction}
    (h : Interleave [] ys zs) : zs = ys := by
  induction zs generalizing ys with
  | nil => cases h; rfl
  | cons z zt ih =>
      cases h with
      | right h2 => exact congrArg (List.cons z) (ih h2)

lemma interleave_nil_right {xs zs : List RunAction}
    (h : Interleave xs [] zs) : zs = xs := by
  induction zs generalizing xs with
  | nil => cases h; rfl
  | cons z zt ih =>
      cases h with
      | left h2 => exact congrArg (List.cons z) (ih h2)

lemma interleave_stop_enum (z : List RunAction)
    (h : Interleave stopThread mainAfterKill z) :
    z = [.restoreCfg, .saveStatus .CANCELLED, .closeProc, .restoreCfg, .saveStatus .FAILED] ∨
    z = [.restoreCfg, .closeProc, .saveStatus .CANCELLED, .restoreCfg, .saveStatus .FAILED] ∨
    z = [.restoreCfg, .closeProc, .restoreCfg, .saveStatus .CANCELLED, .saveStatus .FAILED] ∨
    z = [.restoreCfg, .closeProc, .restoreCfg, .saveStatus .FAILED, .saveStatus .CANCELLED] ∨
    z = [.closeProc, .restoreCfg, .saveStatus .CANCELLED, .restoreCfg, .saveStatus .FAILED] ∨
    z = [.closeProc, .restoreCfg, .restoreCfg, .saveStatus .CANCELLED, .saveStatus .FAILED] ∨
    z = [.closeProc, .restoreCfg, .restoreCfg, .saveStatus .FAILED, .saveStatus .CANCELLED] ∨
    z = [.closeProc, .restoreCfg, .saveStatus .FAILED, .restoreCfg, .saveStatus .CANCELLED] := by
  simp only [stopThread, mainAfterKill] at h
  cases h with
  | left h1 =>
      cases h1 with
      | left h2 =>
          have hz := interleave_nil_left h2
          subst hz
          tauto
      | right h2 =>
          cases h2 with
          | left h3 =>
              have hz := interleave_nil_left h3
              subst hz
              tauto
          | right h3 =>
              cases h3 with
              | left h4 =>
                  have hz := interleave_nil_left h4
                  subst hz
                  tauto
              | right h4 =>
                  have hz := interleave_nil_right h4
                  subst hz
                  tauto
  | right h1 =>
      cases h1 with
      | left h2 =>
          cases h2 with
          | left h3 =>
              have hz := interleave_nil_left h3
              subst hz
              tauto
          | right h3 =>
              cases h3 with
              | left h4 =>
                  have hz := interleave_nil_left h4
                  subst hz
                  tauto
              | right h4 =>
                  have hz := interleave_nil_right h4
                  subst hz
                  tauto
      | right h2 =>
          cases h2 with
          | left h3 =>
              cases h3 with
              | left h4 =>
                  have hz := interleave_nil_left h4
                  subst hz
                  tauto
              | right h4 =>
                  have hz := interleave_nil_right h4
                  subst hz
                  tauto
          | right h3 =>
              have hz := interleave_nil_right h3
              subst hz
              tauto

/-- C1: for every possible trace of a run — success, failure, exception, or
stop, under every interleaving of the stop path with the main continuation —
provided the initial backup copy succeeded, the configuration file equals
its pre-start content at the end of the trace, and already at every moment a
terminal status is recorded (the history pairs each saved status with the
config content at that instant).  The seed-range mutation `mutate` is
arbitrary. -/
theorem config_roundtrip_on_termination (mutate : ℕ → ℕ) (c₀ : ℕ)
    (tr : List RunAction) (h : RunTrace true tr) :
    (execA mutate { config := c₀, backup := none, history := [] } tr).config = c₀ ∧
    ∀ p ∈ (execA mutate { config := c₀, backup := none, history := [] } tr).history,
      p.1.isTerminal = true → p.2 = c₀ := by
  cases h with
  | completed =>
      constructor
      · simp [execA, preTrace, stepA]
      · intro p hp ht
        simp [execA, preTrace, stepA] at hp
        rcases hp with rfl | rfl | rfl <;> simp_all [Status.isTerminal]
  | failed =>
      constructor
      · simp [execA, preTrace, stepA]
      · intro p hp ht
        simp [execA, preTrace, stepA] at hp
        rcases hp with rfl | rfl | rfl <;> simp_all [Status.isTerminal]
  | errored =>
      constructor
      · simp [execA, preTrace, stepA]
      · intro p hp ht
        simp [execA, preTrace, stepA] at hp
        rcases hp with rfl | rfl | rfl <;> simp_all [Status.isTerminal]
  | stopped z hz =>
      rcases interleave_stop_enum z hz with rfl | rfl | rfl | rfl | rfl | rfl | rfl | rfl <;>
        (constructor
         · simp [execA, preTrace, stepA]
         · intro p hp ht
           simp [execA, preTrace, stepA] at hp
           rcases hp with rfl | rfl | rfl | rfl <;> simp_all [Status.isTerminal])

/-- Witness for C1: the successful-completion trace from initial config
content 5, with the seed-range mutation modelled as `n + 1`. -/
theorem config_roundtrip_on_termination_witness :
    (execA (fun n => n + 1) { config := 5, backup := none, history := [] }
      (preTrace true ++ [.closeProc, .restoreCfg, .saveStatus .COMPLETED])).config = 5 :=
  (config_roundtrip_on_termination (fun n => n + 1) 5 _ RunTrace.completed).1

/-- Counterexample for C2: a stopped run, with the interleaving in which
`stopExecution` restores the config and saves `CANCELLED` before the killed
process's close resolves the main continuation.  The status history is
`IDLE, RUNNING, CANCELLED, FAILED` — the record is set to `CANCELLED` by
`stopExecution` and SUBSEQUENTLY set to `FAILED` when `executePacher`
finalizes the unsuccessful process result, i.e. two different terminal
statuses occur for the same run id. -/
theorem status_monotonic_counterexample :
    RunTrace true (preTrace true ++ .killProc ::
      [.restoreCfg, .saveStatus .CANCELLED, .closeProc, .restoreCfg,
       .saveStatus .FAILED]) ∧
    (execA (fun n => n + 1) { config := 0, backup := none, history := [] }
      (preTrace true ++ .killProc ::
        [.restoreCfg, .saveStatus .CANCELLED, .closeProc, .restoreCfg,
         .saveStatus .FAILED])).history.map Prod.fst
      = [.IDLE, .RUNNING, .CANCELLED, .FAILED] := by
  constructor
  · exact RunTrace.stopped _ (.left (.left (.right (.right (.right .nil)))))
  · decide

/-- C2 amended: along every possible trace of a run the status history is
monotonic — `IDLE`, then `RUNNING`, then terminal statuses only, never a
non-terminal after a terminal — but a stopped run records TWO terminal
statuses, `CANCELLED` and `FAILED` (in either order, depending on the
interleaving), because the kill makes the main continuation finalize the run
as `FAILED` in addition to `stopExecution`'s `CANCELLED`; runs that are not
stopped end in exactly one terminal status. -/
theorem status_history_enum (mutate : ℕ → ℕ) (c₀ : ℕ) (bk : Bool)
    (tr : List RunAction) (h : RunTrace bk tr) :
    (execA mutate { config := c₀, backup := none, history := [] } tr).history.map
      Prod.fst ∈
      [[Status.IDLE, .RUNNING, .COMPLETED],
       [Status.IDLE, .RUNNING, .FAILED],
       [Status.IDLE, .RUNNING, .CANCELLED, .FAILED],
       [Status.IDLE, .RUNNING, .FAILED, .CANCELLED]] := by
  cases h with
  | completed => cases bk <;> simp [execA, preTrace, stepA]
  | failed => cases bk <;> simp [execA, preTrace, stepA]
  | errored => cases bk <;> simp [execA, preTrace, stepA]
  | stopped z hz =>
      rcases interleave_stop_enum z hz with rfl | rfl | rfl | rfl | rfl | rfl | rfl | rfl <;>
        cases bk <;> simp [execA, preTrace, stepA]

/-- Witness for C2 (amended): the successful-completion trace with backup
succeeding yields the history `IDLE, RUNNING, COMPLETED`. -/
theorem status_history_enum_witness :
    (execA (fun n => n + 1) { config := 5, backup := none, history := [] }
      (preTrace true ++ [.closeProc, .restoreCfg, .saveStatus .COMPLETED])).history.map
      Prod.fst ∈
      [[Status.IDLE, .RUNNING, .COMPLETED],
       [Status.IDLE, .RUNNING, .FAILED],
       [Status.IDLE, .RUNNING, .CANCELLED, .FAILED],
       [Status.IDLE, .RUNNING, .FAILED, .CANCELLED]] :=
  status_history_enum (fun n => n + 1) 5 true _ RunTrace.completed
